import Mathlib

/-
  Verification development for the dom-parser core
  (classification-and-normalization pipeline of `src/parser.ts`).

  The dynamically typed JavaScript values manipulated by the normalizer are
  embedded as a universal value type `JSVal`; DOM input trees are embedded
  as `DOMNode`.  All functions are translated from the source; the
  rendering engine's URL resolver (`new URL(x, document.baseURI)`) is an
  external collaborator and is taken as a parameter that may fail, failure
  propagating as the thrown exception does in JavaScript.
-/

set_option maxHeartbeats 1000000

namespace DomSpec

/-! ## Universal JavaScript value type -/

/-- Universal value type for the dynamically typed JavaScript data the
pipeline works on.  Objects are ordered association lists (insertion
order), matching JavaScript key-enumeration order for non-numeric string
keys; `undefined` is JavaScript `undefined` (in particular the result of
reading an absent property). -/
inductive JSVal where
  | undefined
  | null
  | str (s : String)
  | arr (elems : List JSVal)
  | obj (fields : List (String × JSVal))
deriving Repr

/-- Property read `v[k]`: `undefined` when the key is absent or the value
is not an object (our objects never store numeric keys). -/
def lookupField : List (String × JSVal) → String → JSVal
  | [], _ => .undefined
  | (k1, v1) :: fs, k => if k1 = k then v1 else lookupField fs k

def getField : JSVal → String → JSVal
  | .obj fs, k => lookupField fs k
  | _, _ => .undefined

/-- Property write `v[k] = w`: replaces the value in place when the key
exists (keeping its position) and appends the key otherwise, as
JavaScript assignment does. -/
def setFields : List (String × JSVal) → String → JSVal → List (String × JSVal)
  | [], k, v => [(k, v)]
  | (k1, v1) :: fs, k, v => if k1 = k then (k1, v) :: fs else (k1, v1) :: setFields fs k v

def setField : JSVal → String → JSVal → JSVal
  | .obj fs, k, v => .obj (setFields fs k v)
  | x, _, _ => x

/-- Property removal `delete v[k]`. -/
def deleteFields : List (String × JSVal) → String → List (String × JSVal)
  | [], _ => []
  | (k1, v1) :: fs, k => if k1 = k then fs else (k1, v1) :: deleteFields fs k

def deleteField : JSVal → String → JSVal
  | .obj fs, k => .obj (deleteFields fs k)
  | x, _ => x

def hasOwnProp : JSVal → String → Bool
  | .obj fs, k => fs.any (fun f => f.1 = k)
  | _, _ => false

/-- `Object.keys` / `for-in` enumeration order. -/
def keysOf : JSVal → List String
  | .obj fs => fs.map Prod.fst
  | _ => []

def fieldsOf : JSVal → List (String × JSVal)
  | .obj fs => fs
  | _ => []

/-- JavaScript truthiness on the values occurring in the pipeline
(`undefined`, `null` and the empty string are falsy; every other string,
array and object is truthy). -/
def jsTruthy : JSVal → Bool
  | .undefined => false
  | .null => false
  | .str s => s ≠ ""
  | .arr _ => true
  | .obj _ => true

/-- Read a value that is a string in every reachable state of the
pipeline.  (JavaScript would coerce or throw on other shapes.) -/
def asString : JSVal → String
  | .str s => s
  | _ => ""

def isArr : JSVal → Bool
  | .arr _ => true
  | _ => false

def arrElems : JSVal → List JSVal
  | .arr xs => xs
  | _ => []

/-! ## Whitespace and character classes

The character classes of the regular expressions in the source, in the
default (non-unicode-flag) semantics of JavaScript regular expressions. -/

/-- JavaScript regular-expression class backslash-s (also the class used
by `String.prototype.trim`). -/
def isJSWhitespace (c : Char) : Bool :=
  c = ' ' || c = '\t' || c = '\n' || c = '\r' || c.val = 0xb || c.val = 0xc ||
  c.val = 0xa0 || c.val = 0x1680 || (0x2000 ≤ c.val && c.val ≤ 0x200a) ||
  c.val = 0x2028 || c.val = 0x2029 || c.val = 0x202f || c.val = 0x205f ||
  c.val = 0x3000 || c.val = 0xfeff

/-- JavaScript regular-expression class backslash-w: ASCII letters, digits
and underscore. -/
def isWordChar (c : Char) : Bool :=
  ('a' ≤ c && c ≤ 'z') || ('A' ≤ c && c ≤ 'Z') || ('0' ≤ c && c ≤ '9') || c = '_'

/-- `toUpperCase` on the ASCII tag and attribute names the pipeline
compares (character-wise ASCII case mapping). -/
def jsToUpper (s : String) : String := String.mk (s.toList.map Char.toUpper)

/-- `toLowerCase` on the ASCII strings the pipeline compares. -/
def jsToLower (s : String) : String := String.mk (s.toList.map Char.toLower)

/-- `s.startsWith(p)` as a character-list test. -/
def strStartsWith (s p : String) : Bool := p.toList.isPrefixOf s.toList

/-- Collapse every whitespace run to a single space:
`text.replace(regex of one-or-more backslash-s, ' ')`.
The boolean argument records whether the previous character belonged to a
whitespace run. -/
def collapseWS : Bool → List Char → List Char
  | _, [] => []
  | prevWS, c :: rest =>
    if isJSWhitespace c then
      if prevWS then collapseWS true rest else ' ' :: collapseWS true rest
    else c :: collapseWS false rest

def trimSpacesLeft (l : List Char) : List Char := l.dropWhile (· = ' ')

/-- `trimAndNormalize` from the source: collapse whitespace runs to single
spaces, then trim.  After collapsing, the only whitespace characters left
are plain spaces, so trimming drops leading/trailing spaces. -/
def trimAndNormalize (text : String) : String :=
  String.mk (((trimSpacesLeft (collapseWS false text.toList)).reverse.dropWhile
    (· = ' ')).reverse)

/-! ## DOM snapshot model -/

/-- DOM tree snapshot handed over by the rendering engine: an element
carries its tag, attributes, the externally computed visibility signal and
its child nodes; `other` stands for node kinds besides element/text
(comments, processing instructions). -/
inductive DOMNode where
  | text (content : String)
  | element (tag : String) (attrs : List (String × String)) (visible : Bool)
      (children : List DOMNode)
  | other
deriving Repr

def DOMNode.getAttribute : DOMNode → String → Option String
  | .element _ attrs _ _, name => attrs.lookup name
  | _, _ => none

def DOMNode.hasAttribute (n : DOMNode) (name : String) : Bool :=
  (n.getAttribute name).isSome

/-- Truthiness of `element.getAttribute(x)` (null or empty string falsy). -/
def attrTruthy : Option String → Bool
  | some s => s ≠ ""
  | none => false

def DOMNode.childNodes : DOMNode → List DOMNode
  | .element _ _ _ cs => cs
  | _ => []

/-- Tag match of a simple type selector (HTML tag matching is
case-insensitive). -/
def DOMNode.isElemTag (n : DOMNode) (t : String) : Bool :=
  match n with
  | .element tg _ _ _ => jsToUpper tg = jsToUpper t
  | _ => false

mutual

/-- Descendant elements and nodes of a node in document (pre-)order,
excluding the node itself; the search space of
`querySelector`/`querySelectorAll`. -/
def descendants : DOMNode → List DOMNode
  | .text _ => []
  | .other => []
  | .element _ _ _ cs => descendantsList cs

def descendantsList : List DOMNode → List DOMNode
  | [] => []
  | c :: cs => c :: (descendants c ++ descendantsList cs)

end

/-- `querySelectorAll` restricted to a disjunction of type selectors
(`'tr'`, `'th'`, `'td, th'`), the only selectors the table extractor
uses: all matching descendants in document order. -/
def qsa (n : DOMNode) (tags : List String) : List DOMNode :=
  (descendants n).filter (fun d => tags.any (fun t => d.isElemTag t))

/-- `querySelector` for a single type selector: first matching descendant
in document order. -/
def qsel (n : DOMNode) (t : String) : Option DOMNode :=
  (descendants n).find? (fun d => d.isElemTag t)

mutual

/-- `node.textContent`: concatenated contents of all descendant text
nodes, in document order (comments and other node kinds excluded). -/
def DOMNode.textContent : DOMNode → String
  | .text s => s
  | .other => ""
  | .element _ _ _ cs => DOMNode.textContentList cs

def DOMNode.textContentList : List DOMNode → String
  | [] => ""
  | c :: cs => DOMNode.textContent c ++ DOMNode.textContentList cs

end

/-! ## Tag classification -/

def INTERACTIVE_TAGS : List String := ["BUTTON", "INPUT", "SELECT", "TEXTAREA"]

def PRESERVED_TAGS : List String :=
  ["H1", "H2", "H3", "H4", "H5", "H6", "UL", "OL", "LI", "P", "A", "TABLE",
   "IMG", "VIDEO", "IFRAME", "CODE", "PRE", "ARTICLE", "SECTION"]

/-- Source: `hasRoleAttr && element.getAttribute('role')?.toLowerCase() === 'button'`. -/
def hasButtonRole (n : DOMNode) : Bool :=
  n.hasAttribute "role" &&
    (match n.getAttribute "role" with
     | some r => jsToLower r = "button"
     | none => false)

/-- Source: `INTERACTIVE_TAGS.has(tagName) || hasButtonRole`; `tagName` is
the uppercased tag. -/
def isInteractiveNode (tagName : String) (n : DOMNode) : Bool :=
  INTERACTIVE_TAGS.contains tagName || hasButtonRole n

/-! ## Node processor

The recursion of `processDOMNode` and `extractTableData` goes through
`querySelectorAll`-selected descendants and is not structural, so we make
totality explicit with a fuel parameter; every stated result holds for
every sufficient fuel.  The traversal-ordered interactive side list is the
explicitly threaded accumulator `acc`; a thrown URL-resolution error
propagates through `Except`. -/

inductive PErr where
  | urlError
  | outOfFuel
deriving Repr, DecidableEq

/-- The external resolver standing for `new URL(s, document.baseURI).href`;
`none` models the constructor throwing on an unresolvable value. -/
def resolveURL (res : String → Option String) (s : String) : Except PErr String :=
  match res s with
  | some u => .ok u
  | none => .error .urlError

def attributesToExtract : List String :=
  ["id", "name", "data-testid", "class", "title", "aria-label", "data-network",
   "tabindex", "placeholder", "value"]

/-- Building of the `InteractiveElement` record: the lowercased tag, the
allow-listed attributes that are present (value read as
`getAttribute(attr) || undefined`), the normalized text content when
non-empty, and a resolved `href` for anchors. -/
def buildInteractive (res : String → Option String) (tagName : String) (n : DOMNode) :
    Except PErr JSVal := do
  let fields := [("tag", JSVal.str (jsToLower tagName))]
  let fields := attributesToExtract.foldl
    (fun fs attr =>
      if n.hasAttribute attr then
        fs ++ [(attr, match n.getAttribute attr with
          | some v => if v = "" then JSVal.undefined else JSVal.str v
          | none => JSVal.undefined)]
      else fs)
    fields
  let t := trimAndNormalize n.textContent
  let fields := if t ≠ "" then fields ++ [("text", JSVal.str t)] else fields
  let href := n.getAttribute "href"
  if tagName = "A" && attrTruthy href then do
    let u ← resolveURL res (href.getD "")
    pure (.obj (fields ++ [("href", JSVal.str u)]))
  else
    pure (.obj fields)

/-- Selection of the data rows inside `extractTableData`, translated from
`tableData.header && rows.length > 1 ? rows.slice(1) : rows`; `headerVal`
is the value of `tableData.header` at that point. -/
def tableDataRowsSel (headerVal : JSVal) (rows : List DOMNode) : List DOMNode :=
  if jsTruthy headerVal && decide (1 < rows.length) then rows.drop 1 else rows

mutual

/-- `processDOMNode` from the source: classifies one DOM node and yields a
simplified node, an array to splice, or null, appending interactive
entries to the accumulator as a side effect. -/
def processDOMNode (res : String → Option String) :
    Nat → List JSVal → DOMNode → Except PErr (JSVal × List JSVal)
  | 0, _, _ => .error .outOfFuel
  | fuel + 1, acc, n =>
    match n with
    | .text s =>
      let textContent := trimAndNormalize s
      if textContent = "" then .ok (.null, acc)
      else .ok (.obj [("tag", .str "span"), ("text", .str textContent)], acc)
    | .other => .ok (.null, acc)
    | .element tg attrs visible children =>
      let node := DOMNode.element tg attrs visible children
      let tagName := jsToUpper tg
      if tagName = "SCRIPT" || tagName = "STYLE" then .ok (.null, acc)
      else if visible = false then .ok (.null, acc)
      else do
        let acc ←
          if isInteractiveNode tagName node then do
            let io ← buildInteractive res tagName node
            pure (acc ++ [io])
          else pure acc
        if PRESERVED_TAGS.contains tagName = false then do
          let (childNodes, acc) ← traverseChildNodes res fuel acc children
          pure (if childNodes.length ≠ 0 then JSVal.arr childNodes else JSVal.null, acc)
        else if tagName = "TABLE" then
          extractTableData res fuel acc node
        else do
          let elementObject := JSVal.obj [("tag", JSVal.str (jsToLower tagName))]
          let href := node.getAttribute "href"
          let elementObject ←
            if tagName = "A" && attrTruthy href then do
              let u ← resolveURL res (href.getD "")
              pure (setField elementObject "href" (.str u))
            else pure elementObject
          let src := node.getAttribute "src"
          let elementObject ←
            if attrTruthy src then do
              let u ← resolveURL res (src.getD "")
              pure (setField elementObject "src" (.str u))
            else pure elementObject
          if tagName = "IMG" then
            let altText := node.getAttribute "alt"
            let elementObject :=
              if attrTruthy altText then
                setField elementObject "alt" (.str (trimAndNormalize (altText.getD "")))
              else elementObject
            pure (elementObject, acc)
          else do
            let poster := node.getAttribute "poster"
            let elementObject ←
              if tagName = "VIDEO" && attrTruthy poster then do
                let u ← resolveURL res (poster.getD "")
                pure (setField elementObject "poster" (.str u))
              else pure elementObject
            let (cs, acc) ← traverseChildNodes res fuel acc children
            let elementObject :=
              if cs.length ≠ 0 then setField elementObject "children" (.arr cs)
              else elementObject
            pure (elementObject, acc)
termination_by structural fuel _acc _n => fuel

/-- `traverseChildNodes` from the source: processes a sibling list,
skipping null yields and splicing array yields. -/
def traverseChildNodes (res : String → Option String) :
    Nat → List JSVal → List DOMNode → Except PErr (List JSVal × List JSVal)
  | 0, _, _ => .error .outOfFuel
  | _ + 1, acc, [] => .ok ([], acc)
  | fuel + 1, acc, child :: rest => do
    let (processedChild, acc) ← processDOMNode res fuel acc child
    let (children, acc) ← traverseChildNodes res fuel acc rest
    match processedChild with
    | .null => pure (children, acc)
    | .arr xs => pure (xs ++ children, acc)
    | v => pure (v :: children, acc)
termination_by structural fuel _acc _cs => fuel

/-- `extractTableData` from the source, including the always-truthy header
test in the data-row selection and the `[0]` indexing of the mapped rows. -/
def extractTableData (res : String → Option String) :
    Nat → List JSVal → DOMNode → Except PErr (JSVal × List JSVal)
  | 0, _, _ => .error .outOfFuel
  | fuel + 1, acc, tableElement => do
    let thead := qsel tableElement "thead"
    let headerRow := thead.bind (fun th => qsel th "tr")
    let firstRow := qsel tableElement "tr"
    let headerCells := match firstRow with
      | some fr => qsa fr ["th"]
      | none => []
    let (headerV, acc) ←
      match headerRow with
      | some hr => processCellList res fuel acc (qsa hr ["th"])
      | none =>
        if headerCells.length ≠ 0 then processCellList res fuel acc headerCells
        else pure ([], acc)
    let tbody := (qsel tableElement "tbody").getD tableElement
    let rows := qsa tbody ["tr"]
    let dataRows := tableDataRowsSel (JSVal.arr headerV) rows
    let (mapped, acc) ← processRowList res fuel acc dataRows
    let rowsVal := match mapped.head? with
      | some r => JSVal.arr r
      | none => JSVal.undefined
    pure (JSVal.obj [("tag", .str "table"), ("header", JSVal.arr headerV),
      ("rows", rowsVal)], acc)
termination_by structural fuel _acc _t => fuel

/-- Cell mapping `cells.map(cell => processDOMNode(cell) as SimplifiedNode)`:
results are stored as produced (null or array results included). -/
def processCellList (res : String → Option String) :
    Nat → List JSVal → List DOMNode → Except PErr (List JSVal × List JSVal)
  | 0, _, _ => .error .outOfFuel
  | _ + 1, acc, [] => .ok ([], acc)
  | fuel + 1, acc, cell :: rest => do
    let (v, acc) ← processDOMNode res fuel acc cell
    let (vs, acc) ← processCellList res fuel acc rest
    pure (v :: vs, acc)
termination_by structural fuel _acc _cs => fuel

/-- Row mapping `dataRows.map(tr => ...)`: every data row's cells are
processed (all side effects happen) before the caller indexes the result. -/
def processRowList (res : String → Option String) :
    Nat → List JSVal → List DOMNode → Except PErr (List (List JSVal) × List JSVal)
  | 0, _, _ => .error .outOfFuel
  | _ + 1, acc, [] => .ok ([], acc)
  | fuel + 1, acc, tr :: rest => do
    let (cells, acc) ← processCellList res fuel acc (qsa tr ["td", "th"])
    let (rows, acc) ← processRowList res fuel acc rest
    pure (cells :: rows, acc)
termination_by structural fuel _acc _trs => fuel

end

/-! ## Pass 1 — inline-run merge -/

def lastChar? (s : String) : Option Char := s.toList.getLast?

def firstChar? (s : String) : Option Char := s.toList.head?

/-- Test of the anchored pattern over existing text in
`shouldPrependSpace`: the text ends with an opening bracket/quote or a
line break (a trailing carriage return or line feed in any combination is
one of the alternatives). -/
def endsWithOpener (s : String) : Bool :=
  match lastChar? s with
  | some c => c = '«' || c.val = 0x7b || c = '(' || c = '[' || c = '\n' || c = '\r'
  | none => false

/-- Test of the anchored pattern over incoming text in
`shouldPrependSpace`: the text starts with a character that is neither a
word character nor an opening bracket/quote (line-break alternatives are
subsumed by the negated class). -/
def startsNonWord (s : String) : Bool :=
  match firstChar? s with
  | some c => !(isWordChar c || c = '«' || c = '[' || c = '(' || c.val = 0x7b)
  | none => false

/-- `shouldPrependSpace` from the source. -/
def shouldPrependSpace (existingText newText : String) : Bool :=
  let endsWithNoSpace := !endsWithOpener existingText
  let startsWithNoSpace := !startsNonWord newText
  endsWithNoSpace && startsWithNoSpace

/-- Test of the flush pattern in `mergeAdjacentSpans`: the text ends with
sentence-final punctuation, a newline, or whitespace. -/
def endsSentenceOrWS (s : String) : Bool :=
  match lastChar? s with
  | some c => c = '.' || c = '?' || c = '!' || c = '\n' || isJSWhitespace c
  | none => false

/-- Strict-equality test `node.tag === 'span'`. -/
def isTagSpan (v : JSVal) : Bool :=
  match getField v "tag" with
  | .str s => s = "span"
  | _ => false

/-- The text concatenation performed when a span is appended to an open
buffer: `buffer.text += prependSpace ? ' ' + node.text : node.text`. -/
def joinTwo (a b : String) : String :=
  a ++ (if shouldPrependSpace a b then " " else "") ++ b

/-- One iteration of the `nodes.forEach` loop of `mergeAdjacentSpans`,
acting on the state (output list so far, open buffer). -/
def mergeStep (forceMerging : Bool) (st : List JSVal × Option JSVal) (node : JSVal) :
    List JSVal × Option JSVal :=
  if isTagSpan node = false then
    match st.2 with
    | some buffer => (st.1 ++ [buffer, node], none)
    | none => (st.1 ++ [node], none)
  else if jsTruthy (getField node "text") = false then st
  else
    let nodeText := asString (getField node "text")
    let buffer :=
      match st.2 with
      | none => node
      | some b => setField b "text" (.str (joinTwo (asString (getField b "text")) nodeText))
    if endsSentenceOrWS nodeText = false || forceMerging then (st.1, some buffer)
    else (st.1 ++ [buffer], none)

/-- `mergeAdjacentSpans` from the source (the list-level body; the
source's non-array guard is `mergeAdjacentSpansVal` below).  Any open
buffer is pushed after the loop. -/
def mergeAdjacentSpans (nodes : List JSVal) (forceMerging : Bool) : List JSVal :=
  let st := nodes.foldl (mergeStep forceMerging) ([], none)
  st.1 ++ (match st.2 with | some buffer => [buffer] | none => [])

/-- `mergeAdjacentSpans` including the `!Array.isArray(nodes)` guard. -/
def mergeAdjacentSpansVal (v : JSVal) (forceMerging : Bool) : JSVal :=
  match v with
  | .arr xs => .arr (mergeAdjacentSpans xs forceMerging)
  | x => x

/-! ## Pass 2 — structural collapse -/

/-- `flattenSingleChildNodes` from the source: absorb the single element
of `data[key]` into `data`, then re-encode.  When `data` has no `tag` and
a truthy `text` (reachable only for the top-level result wrapper) the
JavaScript source throws a TypeError at `tag.startsWith`; the embedded
read returns the empty string there. -/
def flattenSingleChildNodes (data : JSVal) (key : String) : JSVal :=
  let child := (arrElems (getField data key)).headD .undefined
  let data := (fieldsOf child).foldl
    (fun d f => if f.1 = "tag" then d else setField d f.1 f.2) data
  let data := if hasOwnProp child key = false then deleteField data key else data
  let tag := getField data "tag"
  let text := getField data "text"
  let href := getField data "href"
  if jsTruthy text = false || strStartsWith (asString tag) "h" || asString tag = "li" then
    data
  else
    let data := setField data "tag" (.str "span")
    if jsTruthy href then
      deleteField
        (setField data "text"
          (.str ("[" ++ asString text ++ "](" ++ asString href ++ ")"))) "href"
    else if asString tag = "code" then
      setField data "text" (.str ("`" ++ asString text ++ "`"))
    else if asString tag = "pre" then
      setField data "text" (.str ("\n```\n" ++ asString text ++ "\n```\n"))
    else data

/-- One iteration of the key loop at the end of `flattenNodes`:
`header`/`rows` are exempt; an empty array field is deleted; a singleton
array field is absorbed. -/
def collapseStep (data : JSVal) (key : String) : JSVal :=
  if key = "header" ∨ key = "rows" then data
  else
    let value := getField data key
    if isArr value = false ∨ 1 < (arrElems value).length then data
    else if (arrElems value).length = 0 then deleteField data key
    else flattenSingleChildNodes data key

mutual

/-- `flattenNodes` from the source: primitives pass through; an array is
flattened element-wise, compacted, and span-merged; an object whose only
key is `tag` collapses to null before its fields are visited; otherwise
every field is flattened in place, a list item's children are
force-merged, and the key loop collapses empty and singleton array
fields. -/
def flattenNodes : JSVal → JSVal
  | .undefined => .undefined
  | .null => .null
  | .str s => .str s
  | .arr xs =>
    let flattenedArray := (flattenList xs).filter jsTruthy
    .arr (mergeAdjacentSpans flattenedArray false)
  | .obj fields =>
    if fields.length = 1 ∧ hasOwnProp (JSVal.obj fields) "tag" = true then .null
    else
      let data := JSVal.obj (flattenFields fields)
      let data :=
        if (match getField data "tag" with
            | .str s => s = "li"
            | _ => false) && jsTruthy (getField data "children") then
          setField data "children" (mergeAdjacentSpansVal (getField data "children") true)
        else data
      (keysOf data).foldl collapseStep data

def flattenList : List JSVal → List JSVal
  | [] => []
  | x :: xs => flattenNodes x :: flattenList xs

def flattenFields : List (String × JSVal) → List (String × JSVal)
  | [] => []
  | (k, v) :: fs => (k, flattenNodes v) :: flattenFields fs

end

/-! ## Notions used to state the properties -/

/-- The generic inline-text node produced for a text run. -/
def mkSpan (t : String) : JSVal := .obj [("tag", .str "span"), ("text", .str t)]

/-- The texts of the inline-text nodes of a sibling sequence that take
part in merging (tag is span and text truthy), in order. -/
def spanTexts (nodes : List JSVal) : List String :=
  nodes.filterMap (fun n =>
    if isTagSpan n = true ∧ jsTruthy (getField n "text") = true then
      some (asString (getField n "text"))
    else none)

/-- Left fold of the buffer-append operation over a run of texts: the
buffer text after a first text t and subsequent texts ts were merged. -/
def joinRun (t : String) (ts : List String) : String := ts.foldl joinTwo t

/-- Interleaving of a run of texts with explicit separator strings:
removing the separators recovers exactly the original texts in order. -/
def sepConcat : String → List String → List String → String
  | t, [], _ => t
  | t, u :: us, s :: ss => sepConcat (t ++ s ++ u) us ss
  | t, u :: us, [] => sepConcat (t ++ u) us []

/-- The final push of a still-open buffer after the merge loop. -/
def optList : Option JSVal → List JSVal
  | some b => [b]
  | none => []

/-- Invariant of the emitted output during the merge fold: every emitted
inline-text node carries the joined text of a consecutive run of the
source texts. -/
def OutInv (src : List String) (out : List JSVal) : Prop :=
  ∀ m ∈ out, isTagSpan m = true →
    ∃ t ts pre post, src = pre ++ (t :: ts) ++ post ∧
      asString (getField m "text") = joinRun t ts

/-- Invariant of the open buffer during the merge fold: it is an
inline-text node whose text is the join of a suffix run of the source
texts. -/
def BufInv (src : List String) : Option JSVal → Prop
  | none => True
  | some b => isTagSpan b = true ∧
      ∃ t ts pre, src = pre ++ (t :: ts) ∧ asString (getField b "text") = joinRun t ts

/-! ## Concrete inputs used in the evaluations -/

/-- Resolver standing for a page on which every relative URL fails to
resolve (the URL constructor throws). -/
def res0 : String → Option String := fun _ => none

/-- Resolver standing for the base URI https-example-com: resolution of a
root-relative reference appends it to the origin, as the URL constructor
does for the references appearing in the scenarios. -/
def resolveExample : String → Option String :=
  fun s => some ("https://example.com" ++ s)

def buttonGo : DOMNode := .element "button" [("id", "go")] true [.text "Go"]

def mkTd (s : String) : DOMNode := .element "td" [] true [.text s]

def mkTr (s : String) : DOMNode := .element "tr" [] true [mkTd s]

/-- A table with three data rows and no header cells anywhere. -/
def table3 : DOMNode :=
  .element "table" [] true [.element "tbody" [] true [mkTr "1", mkTr "2", mkTr "3"]]

/-- A table with two data rows and no header cells anywhere. -/
def table2 : DOMNode :=
  .element "table" [] true [.element "tbody" [] true [mkTr "1", mkTr "2"]]

/-- A paragraph whose only child is an empty, attribute-less anchor. -/
def pWithEmptyAnchor : DOMNode := .element "p" [] true [.element "a" [] true []]

/-- The scenario input: a paragraph wrapping an anchor with a
root-relative href and the text Click. -/
def pAnchorClick : DOMNode :=
  .element "p" [] true [.element "a" [("href", "/x")] true [.text "Click"]]

/-- The raw simplified node the node processor yields for `pAnchorClick`. -/
def pAnchorClickRaw : JSVal :=
  .obj [("tag", .str "p"),
    ("children", .arr [.obj [("tag", .str "a"),
      ("href", .str "https://example.com/x"),
      ("children", .arr [.obj [("tag", .str "span"), ("text", .str "Click")]])]])]

/-! ## Claim C1 — data rows of the table extractor -/

/-- Claim C1: evaluation of the table extractor at a table with three data
rows and no header.  The mapped-rows indexing keeps only the first
remaining mapped row: `rows` holds the processed cells of the single row
with text 2 (the row with text 1 having been sliced off by the data-row
selection, the row with text 3 silently dropped by the indexing), instead
of every data row as the claim states. -/
theorem c1_rows_keep_only_first_mapped_row :
    extractTableData res0 20 [] table3 =
      .ok (.obj [("tag", .str "table"), ("header", .arr []),
        ("rows", .arr [.arr [mkSpan "2"]])], []) := rfl

/-! ## Claim C2 — interactive elements and the structural tree -/

/-- Claim C2: evaluation of the node processor at a button with id go and
text Go.  Exactly one interactive entry with fields tag, id, text is
appended, but the element is then treated as a transparent wrapper: its
text content is returned as a structural span node, which the final
normalizer keeps, contradicting the claim that interactive elements
contribute nothing to the structural tree. -/
theorem c2_button_text_leaks_into_structure :
    processDOMNode res0 10 [] buttonGo =
      .ok (.arr [mkSpan "Go"],
        [.obj [("tag", .str "button"), ("id", .str "go"), ("text", .str "Go")]]) ∧
    flattenNodes (.arr [mkSpan "Go"]) = .arr [mkSpan "Go"] :=
  ⟨rfl, rfl⟩

/-! ## Claim C3 — degenerate nodes in the final output -/

/-- Claim C3: the paragraph wrapping an empty anchor is processed to a
node with a single child, the child collapses to null inside the
normalizer, the emptied children field is deleted, and the resulting node
whose only populated field is tag is returned in the final output (the
degenerate-node check runs before the fields are visited, never after). -/
theorem c3_degenerate_node_in_output :
    processDOMNode res0 10 [] pWithEmptyAnchor =
      .ok (.obj [("tag", .str "p"), ("children", .arr [.obj [("tag", .str "a")]])], []) ∧
    flattenNodes (.arr [.obj [("tag", .str "p"), ("children", .arr [.obj [("tag", .str "a")]])]]) =
      .arr [.obj [("tag", .str "p")]] :=
  ⟨rfl, rfl⟩

/-! ## Claim C4 — the anchor-absorption scenario -/

/-- Claim C4, counterexample: processing the scenario input and
normalizing the resulting sibling list yields a node whose tag is the
generic inline-text tag span, not p as the claim states (the absorbing
parent is retagged before the link label is encoded). -/
theorem c4_counterexample_scenario_tag_is_span :
    processDOMNode resolveExample 10 [] pAnchorClick = .ok (pAnchorClickRaw, []) ∧
    flattenNodes (.arr [pAnchorClickRaw]) =
      .arr [.obj [("tag", .str "span"), ("text", .str "[Click](https://example.com/x)")]] ∧
    asString (getField (.obj [("tag", .str "span"),
      ("text", .str "[Click](https://example.com/x)")]) "tag") ≠ "p" :=
  ⟨rfl, rfl, by decide⟩

/-! ## Claim C5 — buffer flushing in Pass 1 -/

/-- Claim C5, counterexample: two short sentence-final inline texts are
flushed as two separate nodes; no paragraph break is appended and the
buffer does not stay open, although both texts are far below any length
ceiling. -/
theorem c5_counterexample_sentence_end_flushes :
    mergeAdjacentSpans [mkSpan "A.", mkSpan "B."] false = [mkSpan "A.", mkSpan "B."] ∧
    (mergeAdjacentSpans [mkSpan "A.", mkSpan "B."] false).length = 2 :=
  ⟨rfl, rfl⟩

/-! ## Claim C6 — exclusion of the first data row -/

/-- Claim C6, counterexample: a table with two data rows and no header
cells anywhere derives no header (the header field stays the empty
array), yet the first data row is still excluded: the rows field is built
from the second row alone. -/
theorem c6_counterexample_row_dropped_without_header :
    extractTableData res0 20 [] table2 =
      .ok (.obj [("tag", .str "table"), ("header", .arr []),
        ("rows", .arr [.arr [mkSpan "2"]])], []) ∧
    (arrElems (getField (.obj [("tag", .str "table"), ("header", .arr []),
      ("rows", .arr [.arr [mkSpan "2"]])]) "rows")).length = 1 :=
  ⟨rfl, rfl⟩

/-- Claim C6 (amended): the data-row selection drops the first collected
row exactly when more than one row was collected, independently of the
header value passed to it — the header is always an array at that point,
hence truthy, so how (or whether) a header was derived plays no part. -/
theorem c6_first_row_excluded_iff_many_rows (headerCells : List JSVal) (rows : List DOMNode) :
    tableDataRowsSel (JSVal.arr headerCells) rows =
      if 1 < rows.length then rows.drop 1 else rows := by
  simp [tableDataRowsSel, jsTruthy]

/-! ## Claim C7 — unresolvable URLs -/

/-- Claim C7, counterexample: an anchor whose href the resolver cannot
resolve makes the node processor fail with the propagated resolution
error; the raw attribute value is not retained and extraction does not
proceed. -/
theorem c7_counterexample_unresolvable_href_throws :
    processDOMNode res0 10 [] (.element "a" [("href", "::")] true [.text "x"]) =
      .error .urlError :=
  rfl

/-! ## Claim C8 — the interactive classification -/

/-- Claim C8, counterexample: a div carrying role equal to BUTTON is
classified as interactive although its tag is neither one of the four
interactive tags nor anchor; the role test is applied to every element,
not only to anchors. -/
theorem c8_counterexample_div_with_button_role :
    isInteractiveNode (jsToUpper "div") (.element "div" [("role", "BUTTON")] true []) = true ∧
    jsToUpper "div" ∉ ["BUTTON", "INPUT", "SELECT", "TEXTAREA"] ∧
    jsToUpper "div" ≠ "A" := by
  refine ⟨rfl, ?_, ?_⟩ <;> decide

/-- Claim C8 (amended): an element is classified as interactive exactly
when its uppercased tag is button, input, select or textarea, or its
role attribute — whatever the tag — equals button up to case. -/
theorem c8_interactive_iff (tg : String) (attrs : List (String × String))
    (visible : Bool) (children : List DOMNode) :
    isInteractiveNode (jsToUpper tg) (.element tg attrs visible children) = true ↔
      (jsToUpper tg ∈ ["BUTTON", "INPUT", "SELECT", "TEXTAREA"] ∨
        ∃ r, attrs.lookup "role" = some r ∧ jsToLower r = "button") := by
  cases h : attrs.lookup "role" with
  | none =>
    simp [isInteractiveNode, hasButtonRole, DOMNode.hasAttribute, DOMNode.getAttribute,
      INTERACTIVE_TAGS, h, List.elem_iff]
  | some r =>
    simp [isInteractiveNode, hasButtonRole, DOMNode.hasAttribute, DOMNode.getAttribute,
      INTERACTIVE_TAGS, h, List.elem_iff]

/-! ## Supporting lemmas on strings and the merge step -/

theorem str_append_ne_empty (a b : String) (hb : b ≠ "") : a ++ b ≠ "" := by
  intro hcontra
  apply hb
  have h2 := congrArg String.toList hcontra
  have h3 : a.toList ++ b.toList = [] := h2
  exact String.ext (List.append_eq_nil.mp h3).2

theorem lastChar?_append (a b : String) (hb : b ≠ "") :
    lastChar? (a ++ b) = lastChar? b := by
  unfold lastChar?
  have htl : (a ++ b).toList = a.toList ++ b.toList := rfl
  rw [htl]
  apply List.getLast?_append_of_ne_nil
  intro hnil
  exact hb (String.ext hnil)

theorem endsSentenceOrWS_append (a b : String) (hb : b ≠ "") :
    endsSentenceOrWS (a ++ b) = endsSentenceOrWS b := by
  unfold endsSentenceOrWS
  rw [lastChar?_append a b hb]

theorem jsTruthy_str (s : String) : jsTruthy (.str s) = !(s = "") := by
  simp [jsTruthy]

/-- Appending a span to the state: the output list only ever grows at the
end and the new output and buffer do not depend on the old output. -/
theorem mergeStep_out (f : Bool) (out : List JSVal) (buf : Option JSVal) (n : JSVal) :
    mergeStep f (out, buf) n =
      (out ++ (mergeStep f ([], buf) n).1, (mergeStep f ([], buf) n).2) := by
  simp only [mergeStep]
  by_cases h1 : isTagSpan n = false
  · simp only [h1, if_true]
    cases buf <;> simp
  · simp only [h1, if_false]
    by_cases h2 : jsTruthy (getField n "text") = false
    · simp [h2]
    · simp only [h2, if_false]
      by_cases h3 : endsSentenceOrWS (asString (getField n "text")) = false ∨ f = true
      · simp [h3]
      · simp [h3]

/-- The fold of the merge loop from any already-accumulated output equals
that output followed by the fold from the empty output. -/
theorem foldl_mergeStep_out (f : Bool) :
    ∀ (ns : List JSVal) (out : List JSVal) (buf : Option JSVal),
      List.foldl (mergeStep f) (out, buf) ns =
        (out ++ (List.foldl (mergeStep f) (([] : List JSVal), buf) ns).1,
          (List.foldl (mergeStep f) (([] : List JSVal), buf) ns).2)
  | [], out, buf => by simp
  | n :: ns, out, buf => by
    simp only [List.foldl_cons]
    rw [mergeStep_out f out buf n]
    obtain ⟨o1, b1⟩ := mergeStep f ([], buf) n
    rw [foldl_mergeStep_out f ns (out ++ o1) b1, foldl_mergeStep_out f ns o1 b1]
    simp

/-! ## Claim C10 — empty inline-text nodes -/

/-- Claim C10: an inline-text node whose text is absent or empty is
transparent to Pass 1: it produces no output node and leaves any open
buffer open, so the runs on either side of it merge exactly as if it were
not there. -/
theorem c10_empty_span_transparent (xs ys : List JSVal) (forceMerging : Bool)
    (node : JSVal) (hspan : isTagSpan node = true)
    (htext : getField node "text" = .undefined ∨ getField node "text" = .str "") :
    mergeAdjacentSpans (xs ++ node :: ys) forceMerging =
      mergeAdjacentSpans (xs ++ ys) forceMerging := by
  have htr : jsTruthy (getField node "text") = false := by
    rcases htext with h | h <;> rw [h] <;> rfl
  have hstep : ∀ st, mergeStep forceMerging st node = st := by
    intro st
    simp only [mergeStep, hspan, htr]
    simp
  unfold mergeAdjacentSpans
  rw [List.foldl_append, List.foldl_append]
  simp only [List.foldl_cons, hstep]

/-- Claim C10, witness: the runs Hello and world-dot separated only by a
span with no text merge into the run they would form If adjacent. -/
theorem c10_empty_span_transparent_witness :
    mergeAdjacentSpans [mkSpan "Hello", .obj [("tag", .str "span")], mkSpan "world."] false =
      mergeAdjacentSpans [mkSpan "Hello", mkSpan "world."] false :=
  c10_empty_span_transparent [mkSpan "Hello"] [mkSpan "world."] false
    (.obj [("tag", .str "span")]) rfl (Or.inl rfl)

/-- Claim C5 (amended): after an eligible inline-text node's text is
taken into the buffer, the buffer is flushed exactly when the incoming
text ends in a sentence boundary (sentence-final punctuation, newline or
whitespace) and forceMerging is false — the first conjunct; otherwise
accumulation continues, the following inline text being appended to the
same buffer with the separator rule — the second conjunct.  No paragraph
break is appended and no length ceiling exists. -/
theorem c5_flush_or_accumulate :
    (∀ (t : String) (rest : List JSVal), t ≠ "" → endsSentenceOrWS t = true →
      mergeAdjacentSpans (mkSpan t :: rest) false =
        mkSpan t :: mergeAdjacentSpans rest false) ∧
    (∀ (t1 t2 : String) (rest : List JSVal) (forceMerging : Bool),
      t1 ≠ "" → t2 ≠ "" →
      (endsSentenceOrWS t1 = false ∨ forceMerging = true) →
      mergeAdjacentSpans (mkSpan t1 :: mkSpan t2 :: rest) forceMerging =
        mergeAdjacentSpans (mkSpan (joinTwo t1 t2) :: rest) forceMerging) := by
  constructor
  · intro t rest ht hflush
    have e1 : mergeStep false ([], none) (mkSpan t) = ([mkSpan t], none) := by
      simp [mergeStep, isTagSpan, getField, lookupField, mkSpan, jsTruthy, asString,
        ht, hflush]
    unfold mergeAdjacentSpans
    simp only [List.foldl_cons, e1]
    rw [foldl_mergeStep_out false rest [mkSpan t] none]
    simp
  · intro t1 t2 rest forceMerging h1 h2 hacc
    have hj : joinTwo t1 t2 ≠ "" := str_append_ne_empty _ _ h2
    have hflusheq : endsSentenceOrWS (joinTwo t1 t2) = endsSentenceOrWS t2 :=
      endsSentenceOrWS_append _ _ h2
    have e1 : mergeStep forceMerging ([], none) (mkSpan t1) = ([], some (mkSpan t1)) := by
      simp [mergeStep, isTagSpan, getField, lookupField, mkSpan, jsTruthy, asString, h1]
      intro hend
      rcases hacc with hf | hf
      · rw [hf] at hend
        cases hend
      · exact hf
    have e2 : mergeStep forceMerging ([], some (mkSpan t1)) (mkSpan t2) =
        mergeStep forceMerging ([], none) (mkSpan (joinTwo t1 t2)) := by
      simp [mergeStep, isTagSpan, getField, lookupField, mkSpan, jsTruthy, asString,
        setField, setFields, h2, hj, hflusheq]
    unfold mergeAdjacentSpans
    simp only [List.foldl_cons]
    rw [e1, e2]

/-- Claim C5, witness: a single short sentence-final text is flushed on
its own, and a non-sentence-final text accumulates with its successor. -/
theorem c5_flush_or_accumulate_witness :
    (mergeAdjacentSpans [mkSpan "Hi."] false = mkSpan "Hi." :: mergeAdjacentSpans [] false) ∧
    (mergeAdjacentSpans [mkSpan "a", mkSpan "b."] false =
      mergeAdjacentSpans [mkSpan (joinTwo "a" "b.")] false) :=
  ⟨c5_flush_or_accumulate.1 "Hi." [] (by decide) (by decide),
   c5_flush_or_accumulate.2 "a" "b." [] false (by decide) (by decide) (Or.inl (by decide))⟩

/-- Claim C4 (amended): a node whose tag is neither a heading tag nor the
list-item tag, carrying an href H, that absorbs its single span child
with non-empty text T, becomes a generic inline-text node with text
[T](H) and no href field. -/
theorem c4_link_label_encoding (t T H : String) (hT : T ≠ "") (hH : H ≠ "")
    (hh : strStartsWith t "h" = false) (hli : t ≠ "li") :
    flattenSingleChildNodes
      (.obj [("tag", .str t), ("href", .str H),
        ("children", .arr [.obj [("tag", .str "span"), ("text", .str T)]])]) "children" =
      .obj [("tag", .str "span"), ("text", .str ("[" ++ T ++ "](" ++ H ++ ")"))] := by
  simp [flattenSingleChildNodes, getField, lookupField, arrElems, fieldsOf,
    setField, setFields, deleteField, deleteFields, hasOwnProp, jsTruthy, asString,
    hT, hH, hh, hli]

/-- Claim C4, witness: the anchor of the scenario absorbing its text
child Click with the resolved href yields the encoded link label. -/
theorem c4_link_label_encoding_witness :
    flattenSingleChildNodes
      (.obj [("tag", .str "a"), ("href", .str "https://example.com/x"),
        ("children", .arr [.obj [("tag", .str "span"), ("text", .str "Click")]])]) "children" =
      .obj [("tag", .str "span"),
        ("text", .str ("[" ++ "Click" ++ "](" ++ "https://example.com/x" ++ ")"))] :=
  c4_link_label_encoding "a" "Click" "https://example.com/x"
    (by decide) (by decide) (by decide) (by decide)

/-- Claim C7 (amended): an anchor with an unresolvable href, an image
with an unresolvable src, and a video with an unresolvable poster each
make the node processor fail with the propagated resolution error, for
every positive fuel, resolver, accumulator and content. -/
theorem c7_unresolvable_url_fails (fuel : Nat) (res : String → Option String)
    (acc : List JSVal) (h s p txt : String)
    (hh : h ≠ "") (hhres : res h = none)
    (hs : s ≠ "") (hsres : res s = none)
    (hp : p ≠ "") (hpres : res p = none) :
    processDOMNode res (fuel + 1) acc (.element "a" [("href", h)] true [.text txt]) =
      .error .urlError ∧
    processDOMNode res (fuel + 1) acc (.element "img" [("src", s)] true []) =
      .error .urlError ∧
    processDOMNode res (fuel + 1) acc (.element "video" [("poster", p)] true []) =
      .error .urlError := by
  refine ⟨?_, ?_, ?_⟩
  · have hA : jsToUpper "a" = "A" := rfl
    simp [processDOMNode, isInteractiveNode, hasButtonRole, INTERACTIVE_TAGS,
      PRESERVED_TAGS, DOMNode.hasAttribute, DOMNode.getAttribute, attrTruthy,
      resolveURL, List.lookup, hA, hh, hhres]
    rfl
  · have hI : jsToUpper "img" = "IMG" := rfl
    simp [processDOMNode, isInteractiveNode, hasButtonRole, INTERACTIVE_TAGS,
      PRESERVED_TAGS, DOMNode.hasAttribute, DOMNode.getAttribute, attrTruthy,
      resolveURL, List.lookup, hI, hs, hsres]
  · have hV : jsToUpper "video" = "VIDEO" := rfl
    simp [processDOMNode, isInteractiveNode, hasButtonRole, INTERACTIVE_TAGS,
      PRESERVED_TAGS, DOMNode.hasAttribute, DOMNode.getAttribute, attrTruthy,
      resolveURL, List.lookup, hV, hp, hpres]
    rfl

/-- Claim C7, witness: the three failing shapes at a concrete resolver
that resolves nothing, with concrete attribute values. -/
theorem c7_unresolvable_url_fails_witness :
    processDOMNode res0 1 [] (.element "a" [("href", "::")] true [.text "x"]) =
      .error .urlError ∧
    processDOMNode res0 1 [] (.element "img" [("src", "::")] true []) =
      .error .urlError ∧
    processDOMNode res0 1 [] (.element "video" [("poster", "::")] true []) =
      .error .urlError :=
  c7_unresolvable_url_fails 0 res0 [] "::" "::" "::" "x"
    (by decide) rfl (by decide) rfl (by decide) rfl

/-! ## Supporting lemmas for the merge-pass invariants -/

theorem lookupField_setFields_ne (fs : List (String × JSVal)) (k1 k2 : String)
    (v : JSVal) (hne : k1 ≠ k2) :
    lookupField (setFields fs k1 v) k2 = lookupField fs k2 := by
  induction fs with
  | nil => simp [setFields, lookupField, hne]
  | cons f fs ih =>
    obtain ⟨k, w⟩ := f
    by_cases hk : k = k1
    · subst hk
      simp only [setFields, if_pos rfl, lookupField]
      rw [if_neg (by simpa using hne), if_neg (by simpa using hne)]
    · simp only [setFields, if_neg hk, lookupField]
      by_cases hk2 : k = k2
      · simp [hk2]
      · simp [hk2, ih]

theorem lookupField_setFields_same (fs : List (String × JSVal)) (k : String) (v : JSVal) :
    lookupField (setFields fs k v) k = v := by
  induction fs with
  | nil => simp [setFields, lookupField]
  | cons f fs ih =>
    obtain ⟨k1, w⟩ := f
    by_cases hk : k1 = k
    · simp [setFields, hk, lookupField]
    · simp [setFields, hk, lookupField, ih]

theorem getField_setField_ne (x : JSVal) (k1 k2 : String) (v : JSVal) (hne : k1 ≠ k2) :
    getField (setField x k1 v) k2 = getField x k2 := by
  cases x <;> simp [setField, getField]
  exact lookupField_setFields_ne _ _ _ _ hne

theorem isTagSpan_setField_text (b : JSVal) (v : JSVal) :
    isTagSpan (setField b "text" v) = isTagSpan b := by
  unfold isTagSpan
  rw [getField_setField_ne b "text" "tag" v (by decide)]

theorem isTagSpan_obj (b : JSVal) (h : isTagSpan b = true) :
    ∃ fs, b = JSVal.obj fs := by
  cases b <;> simp [isTagSpan, getField] at h ⊢

theorem joinRun_nil (t : String) : joinRun t [] = t := rfl

theorem joinRun_snoc (t : String) (ts : List String) (u : String) :
    joinRun t (ts ++ [u]) = joinTwo (joinRun t ts) u := by
  simp [joinRun, List.foldl_append]

theorem joinRun_sepConcat : ∀ (ts : List String) (t : String),
    ∃ seps, (∀ s ∈ seps, s = "" ∨ s = " ") ∧ joinRun t ts = sepConcat t ts seps
  | [], t => ⟨[], by simp, by simp [joinRun, sepConcat]⟩
  | u :: us, t => by
    obtain ⟨seps, hseps, heq⟩ := joinRun_sepConcat us (joinTwo t u)
    refine ⟨(if shouldPrependSpace t u then " " else "") :: seps, ?_, ?_⟩
    · intro s hs
      rcases List.mem_cons.mp hs with hs | hs
      · subst hs
        split <;> simp
      · exact hseps s hs
    · have h1 : joinRun t (u :: us) = joinRun (joinTwo t u) us := by simp [joinRun]
      rw [h1, heq]
      rfl

theorem spanTexts_cons_nonspan (n : JSVal) (ns : List JSVal) (h : isTagSpan n = false) :
    spanTexts (n :: ns) = spanTexts ns := by
  simp [spanTexts, List.filterMap_cons, h]

theorem spanTexts_cons_falsy (n : JSVal) (ns : List JSVal)
    (h : jsTruthy (getField n "text") = false) :
    spanTexts (n :: ns) = spanTexts ns := by
  simp [spanTexts, List.filterMap_cons, h]

theorem spanTexts_cons_span (n : JSVal) (ns : List JSVal)
    (h1 : isTagSpan n = true) (h2 : jsTruthy (getField n "text") = true) :
    spanTexts (n :: ns) = asString (getField n "text") :: spanTexts ns := by
  simp [spanTexts, List.filterMap_cons, h1, h2]

theorem OutInv_extend (src delta : List String) (out : List JSVal)
    (h : OutInv src out) : OutInv (src ++ delta) out := by
  intro m hm hspan
  obtain ⟨t, ts, pre, post, hsrc, htext⟩ := h m hm hspan
  exact ⟨t, ts, pre, post ++ delta, by rw [hsrc]; simp, htext⟩

theorem OutInv_push (src : List String) (out : List JSVal) (b : JSVal)
    (hout : OutInv src out)
    (hb : isTagSpan b = true →
      ∃ t ts pre post, src = pre ++ (t :: ts) ++ post ∧
        asString (getField b "text") = joinRun t ts) :
    OutInv src (out ++ [b]) := by
  intro m hm hspan
  rcases List.mem_append.mp hm with hm | hm
  · exact hout m hm hspan
  · rw [List.mem_singleton.mp hm] at hspan ⊢
    exact hb hspan

theorem getField_setField_obj_same (fs : List (String × JSVal)) (k : String) (v : JSVal) :
    getField (setField (.obj fs) k v) k = v := by
  simp [setField, getField, lookupField_setFields_same]

/-- Invariant preservation of the merge fold: starting from an output and
a buffer that carry joins of consecutive runs of the source texts, the
fold over further nodes preserves both invariants, the new source being
extended by the span texts of the processed nodes. -/
theorem mergeFold_inv (f : Bool) :
    ∀ (ns : List JSVal) (src : List String) (out : List JSVal) (buf : Option JSVal),
      OutInv src out → BufInv src buf →
      OutInv (src ++ spanTexts ns) (List.foldl (mergeStep f) (out, buf) ns).1 ∧
      BufInv (src ++ spanTexts ns) (List.foldl (mergeStep f) (out, buf) ns).2
  | [], src, out, buf, hout, hbuf => by
    simpa [spanTexts] using And.intro hout hbuf
  | n :: ns, src, out, buf, hout, hbuf => by
    simp only [List.foldl_cons]
    by_cases h1 : isTagSpan n = true
    · by_cases h2 : jsTruthy (getField n "text") = false
      · rw [spanTexts_cons_falsy n ns h2]
        have hstep : mergeStep f (out, buf) n = (out, buf) := by
          simp [mergeStep, h1, h2]
        rw [hstep]
        exact mergeFold_inv f ns src out buf hout hbuf
      · have h2' : jsTruthy (getField n "text") = true := by simpa using h2
        rw [spanTexts_cons_span n ns h1 h2']
        set u := asString (getField n "text") with hu
        cases buf with
        | none =>
          by_cases h3 : endsSentenceOrWS u = false ∨ f = true
          · have hstep : mergeStep f (out, none) n = (out, some n) := by
              simp [mergeStep, h1, h2', ← hu, h3]
            rw [hstep]
            have hbufnew : BufInv (src ++ [u]) (some n) :=
              ⟨h1, u, [], src, by simp, by simp [joinRun_nil, hu]⟩
            have hgoal := mergeFold_inv f ns (src ++ [u]) out (some n)
              (OutInv_extend src [u] out hout) hbufnew
            simpa [List.append_assoc] using hgoal
          · have hstep : mergeStep f (out, none) n = (out ++ [n], none) := by
              simp [mergeStep, h1, h2', ← hu, h3]
            rw [hstep]
            have houtnew : OutInv (src ++ [u]) (out ++ [n]) := by
              apply OutInv_push
              · exact OutInv_extend src [u] out hout
              · intro _
                exact ⟨u, [], src, [], by simp, by simp [joinRun_nil, hu]⟩
            have hgoal := mergeFold_inv f ns (src ++ [u]) (out ++ [n]) none houtnew trivial
            simpa [List.append_assoc] using hgoal
        | some b =>
          obtain ⟨hbspan, t, ts, pre, hsrc, htext⟩ := hbuf
          obtain ⟨fs, rfl⟩ := isTagSpan_obj b hbspan
          set nb := setField (JSVal.obj fs) "text"
            (.str (joinTwo (asString (getField (JSVal.obj fs) "text")) u)) with hnb
          have hnewtext : asString (getField nb "text") = joinRun t (ts ++ [u]) := by
            rw [hnb, getField_setField_obj_same]
            show joinTwo (asString (getField (JSVal.obj fs) "text")) u = joinRun t (ts ++ [u])
            rw [htext, joinRun_snoc]
          have hnbspan : isTagSpan nb = true := by
            rw [hnb, isTagSpan_setField_text]
            exact hbspan
          have hsrc2 : src ++ [u] = pre ++ (t :: (ts ++ [u])) := by
            rw [hsrc]
            simp
          by_cases h3 : endsSentenceOrWS u = false ∨ f = true
          · have hstep : mergeStep f (out, some (JSVal.obj fs)) n = (out, some nb) := by
              rw [hnb]
              simp [mergeStep, h1, h2', ← hu, h3]
            rw [hstep]
            have hbufnew : BufInv (src ++ [u]) (some nb) :=
              ⟨hnbspan, t, ts ++ [u], pre, hsrc2, hnewtext⟩
            have hgoal := mergeFold_inv f ns (src ++ [u]) out (some nb)
              (OutInv_extend src [u] out hout) hbufnew
            simpa [List.append_assoc] using hgoal
          · have hstep : mergeStep f (out, some (JSVal.obj fs)) n = (out ++ [nb], none) := by
              rw [hnb]
              simp [mergeStep, h1, h2', ← hu, h3]
            rw [hstep]
            have houtnew : OutInv (src ++ [u]) (out ++ [nb]) := by
              apply OutInv_push
              · exact OutInv_extend src [u] out hout
              · intro _
                exact ⟨t, ts ++ [u], pre, [], by simpa using hsrc2, hnewtext⟩
            have hgoal := mergeFold_inv f ns (src ++ [u]) (out ++ [nb]) none houtnew trivial
            simpa [List.append_assoc] using hgoal
    · have h1' : isTagSpan n = false := by simpa using h1
      rw [spanTexts_cons_nonspan n ns h1']
      cases buf with
      | none =>
        have hstep : mergeStep f (out, none) n = (out ++ [n], none) := by
          simp [mergeStep, h1']
        rw [hstep]
        refine mergeFold_inv f ns src (out ++ [n]) none ?_ trivial
        exact OutInv_push src out n hout
          (fun hspan => absurd hspan (by simp [h1']))
      | some b =>
        obtain ⟨hbspan, t, ts, pre, hsrc, htext⟩ := hbuf
        have hstep : mergeStep f (out, some b) n = (out ++ [b, n], none) := by
          simp [mergeStep, h1']
        rw [hstep]
        refine mergeFold_inv f ns src (out ++ [b, n]) none ?_ trivial
        intro m hm hspan
        rcases List.mem_append.mp hm with hm | hm
        · exact hout m hm hspan
        · rcases List.mem_cons.mp hm with rfl | hm
          · exact ⟨t, ts, pre, [], by simpa using hsrc, htext⟩
          · rcases List.mem_singleton.mp hm with rfl
            exact absurd hspan (by simp [h1'])

/-- The merged output, loop output followed by the final buffer push. -/
theorem mergeAdjacentSpans_eq (nodes : List JSVal) (f : Bool) :
    mergeAdjacentSpans nodes f =
      (List.foldl (mergeStep f) (([] : List JSVal), none) nodes).1 ++
        optList (List.foldl (mergeStep f) (([] : List JSVal), none) nodes).2 := by
  cases h : (List.foldl (mergeStep f) (([] : List JSVal), none) nodes).2 <;>
    simp [mergeAdjacentSpans, h, optList]

/-- Order preservation of the merge fold: the nodes that are not
inline-text nodes pass through in their original order. -/
theorem mergeFold_filter (f : Bool) :
    ∀ (ns : List JSVal) (out : List JSVal) (buf : Option JSVal),
      (∀ b, buf = some b → isTagSpan b = true) →
      ((List.foldl (mergeStep f) (out, buf) ns).1 ++
          optList (List.foldl (mergeStep f) (out, buf) ns).2).filter
            (fun m => !isTagSpan m) =
        ((out ++ optList buf).filter (fun m => !isTagSpan m)) ++
          ns.filter (fun m => !isTagSpan m)
  | [], out, buf, hbuf => by simp
  | n :: ns, out, buf, hbuf => by
    simp only [List.foldl_cons]
    by_cases h1 : isTagSpan n = true
    · by_cases h2 : jsTruthy (getField n "text") = false
      · have hstep : mergeStep f (out, buf) n = (out, buf) := by
          simp [mergeStep, h1, h2]
        rw [hstep, mergeFold_filter f ns out buf hbuf]
        simp [List.filter_cons, h1]
      · have h2' : jsTruthy (getField n "text") = true := by simpa using h2
        cases buf with
        | none =>
          by_cases h3 : endsSentenceOrWS (asString (getField n "text")) = false ∨ f = true
          · have hstep : mergeStep f (out, none) n = (out, some n) := by
              simp [mergeStep, h1, h2', h3]
            rw [hstep, mergeFold_filter f ns out (some n)
              (by intro b hb; cases hb; exact h1)]
            simp [List.filter_cons, List.filter_append, h1, optList]
          · have hstep : mergeStep f (out, none) n = (out ++ [n], none) := by
              simp [mergeStep, h1, h2', h3]
            rw [hstep, mergeFold_filter f ns (out ++ [n]) none (by intro b hb; cases hb)]
            simp [List.filter_cons, List.filter_append, h1, optList]
        | some b =>
          have hbspan : isTagSpan b = true := hbuf b rfl
          obtain ⟨fs, rfl⟩ := isTagSpan_obj b hbspan
          set nb := setField (JSVal.obj fs) "text"
            (.str (joinTwo (asString (getField (JSVal.obj fs) "text"))
              (asString (getField n "text")))) with hnb
          have hnbspan : isTagSpan nb = true := by
            rw [hnb, isTagSpan_setField_text]
            exact hbspan
          by_cases h3 : endsSentenceOrWS (asString (getField n "text")) = false ∨ f = true
          · have hstep : mergeStep f (out, some (JSVal.obj fs)) n = (out, some nb) := by
              rw [hnb]
              simp [mergeStep, h1, h2', h3]
            rw [hstep, mergeFold_filter f ns out (some nb)
              (by intro b hb; cases hb; exact hnbspan)]
            simp [List.filter_cons, List.filter_append, h1, hbspan, hnbspan, optList]
          · have hstep : mergeStep f (out, some (JSVal.obj fs)) n = (out ++ [nb], none) := by
              rw [hnb]
              simp [mergeStep, h1, h2', h3]
            rw [hstep, mergeFold_filter f ns (out ++ [nb]) none (by intro b hb; cases hb)]
            simp [List.filter_cons, List.filter_append, h1, hbspan, hnbspan, optList]
    · have h1' : isTagSpan n = false := by simpa using h1
      cases buf with
      | none =>
        have hstep : mergeStep f (out, none) n = (out ++ [n], none) := by
          simp [mergeStep, h1']
        rw [hstep, mergeFold_filter f ns (out ++ [n]) none (by intro b hb; cases hb)]
        simp [List.filter_cons, List.filter_append, h1', optList]
      | some b =>
        have hbspan : isTagSpan b = true := hbuf b rfl
        have hstep : mergeStep f (out, some b) n = (out ++ [b, n], none) := by
          simp [mergeStep, h1']
        rw [hstep, mergeFold_filter f ns (out ++ [b, n]) none (by intro b hb; cases hb)]
        simp [List.filter_cons, List.filter_append, h1', hbspan, optList]

/-! ## Claim C9 — order and text preservation of Pass 1 -/

/-- Claim C9: Pass 1 never reorders siblings — the non-inline-text nodes
of the output are exactly those of the input, in order — and the text of
every inline-text node of the output is an interleaving of a consecutive
run of the input inline texts with separators that are each empty or a
single inserted space, so that removing the separators reproduces the
merged texts in their original order. -/
theorem c9_merge_order_and_text (nodes : List JSVal) (forceMerging : Bool) :
    ((mergeAdjacentSpans nodes forceMerging).filter (fun m => !isTagSpan m) =
      nodes.filter (fun m => !isTagSpan m)) ∧
    (∀ m ∈ mergeAdjacentSpans nodes forceMerging, isTagSpan m = true →
      ∃ t ts pre post seps,
        spanTexts nodes = pre ++ (t :: ts) ++ post ∧
        (∀ s ∈ seps, s = "" ∨ s = " ") ∧
        asString (getField m "text") = sepConcat t ts seps) := by
  constructor
  · have h := mergeFold_filter forceMerging nodes [] none (by intro b hb; cases hb)
    rw [mergeAdjacentSpans_eq]
    simpa using h
  · intro m hm hspan
    have hinv := mergeFold_inv forceMerging nodes [] [] none
      (by intro x hx; cases hx) trivial
    rw [mergeAdjacentSpans_eq] at hm
    rcases List.mem_append.mp hm with hm | hm
    · obtain ⟨t, ts, pre, post, hsrc, htext⟩ := hinv.1 m hm hspan
      obtain ⟨seps, hseps, hjoin⟩ := joinRun_sepConcat ts t
      exact ⟨t, ts, pre, post, seps, by simpa using hsrc, hseps, by rw [htext, hjoin]⟩
    · cases hsnd : (List.foldl (mergeStep forceMerging)
        (([] : List JSVal), none) nodes).2 with
      | none =>
        rw [hsnd] at hm
        simp [optList] at hm
      | some b =>
        rw [hsnd] at hm
        have hb := hinv.2
        rw [hsnd] at hb
        obtain ⟨hbspan, t, ts, pre, hsrc, htext⟩ := hb
        rcases List.mem_singleton.mp hm with rfl
        obtain ⟨seps, hseps, hjoin⟩ := joinRun_sepConcat ts t
        exact ⟨t, ts, pre, [], seps, by simpa using hsrc, hseps, by rw [htext, hjoin]⟩

/-- Claim C9, witness: in the merge of the two texts Hello and world-dot
the single output node's text interleaves the two source texts with one
inserted separator. -/
theorem c9_merge_order_and_text_witness :
    ∃ t ts pre post seps,
      spanTexts [mkSpan "Hello", mkSpan "world."] = pre ++ (t :: ts) ++ post ∧
      (∀ s ∈ seps, s = "" ∨ s = " ") ∧
      asString (getField (mkSpan "Hello world.") "text") = sepConcat t ts seps :=
  (c9_merge_order_and_text [mkSpan "Hello", mkSpan "world."] false).2
    (mkSpan "Hello world.") (List.mem_singleton_self _) rfl

end DomSpec
